import Mathlib

/-!
Verification of the block parser core (src/src/blocks/api/parser.js) of
gutenberg-vue: attribute resolution (`parseBlockAttributes`,
`getBlockAttributes`), type/fallback resolution and suppression
(`createBlockWithFallback`), and the block-list assembler
(`parseWithGrammar`).

JS objects used as attribute mappings are modelled as key-value lists in
which a later binding shadows an earlier one, so the JS spread of several
objects is list append and `getAttr` (last binding wins) is the observable
lookup. External collaborators (the type registry, the unknown-type handler
name, the pegjs grammar, the block factory) are passed as explicit
parameters, as the spec itself directs for modelling (spec section 9).
The value type of attributes is a type parameter `V`.
-/

namespace GutenbergParser

/-- An attribute mapping: the model of a JS object with string keys.
Later bindings shadow earlier ones. -/
abbrev ObjMap (V : Type) := List (String × V)

/-- Observable lookup on an attribute mapping: the last binding of a key
wins, which matches JS spread overwrite semantics under append. -/
def getAttr {V : Type} (m : ObjMap V) (k : String) : Option V :=
  (m.reverse.find? (fun p => p.1 == k)).map (fun p => p.2)

/-- An hpq matcher rule as parser.js sees it: a value in the attributes
mapping that may or may not carry the internal known-matcher flag
(`_wpBlocksKnownMatcher`), together with its evaluation on content.  A rule
that finds no match contributes no key.  The flag is an explicit boolean
field, following the spec's modelling note (spec section 9): plain callables
without the flag are values with the flag false. -/
structure MatcherRule (V : Type) where
  _wpBlocksKnownMatcher : Bool
  run : String → Option V

/-- The shape of a block type's `attributes` field as parser.js inspects it
(lines 22-35): a function, a truthy object of matcher-rule-shaped values, or
absent (undefined / null, falsy). -/
inductive AttrSpec (V : Type) where
  | func (f : String → ObjMap V)
  | matchers (m : List (String × MatcherRule V))
  | absent

/-- A block type descriptor as consumed by parser.js: its `attributes` spec
and its `defaultAttributes` (an absent defaultAttributes spreads to nothing,
which is the empty mapping here). -/
structure BlockType (V : Type) where
  attributes : AttrSpec V
  defaultAttributes : ObjMap V

/-- lodash pickBy with the property-name shorthand of parser.js line 32:
keep exactly the entries whose value carries a truthy
`_wpBlocksKnownMatcher` flag. -/
def pickBy {V : Type} (m : List (String × MatcherRule V)) :
    List (String × MatcherRule V) :=
  m.filter (fun p => p.2._wpBlocksKnownMatcher)

/-- Modelled from the spec: hpq's `parse` is an external dependency (not in
this repository); per spec section 4.2 step 2 it evaluates each given
matcher rule against the content and produces one mapping entry per rule
key, and a rule that finds no match contributes no key. -/
def hpqParse {V : Type} (rawContent : String)
    (ms : List (String × MatcherRule V)) : ObjMap V :=
  ms.filterMap (fun p => (p.2.run rawContent).map (fun v => (p.1, v)))

/-- parser.js lines 21-38: block attributes parsed from raw content.  A
function spec is applied directly; an object spec is filtered to the known
matchers and handed to hpq; otherwise the empty mapping. -/
def parseBlockAttributes {V : Type} (rawContent : String)
    (blockType : BlockType V) : ObjMap V :=
  match blockType.attributes with
  | .func f => f rawContent
  | .matchers m => hpqParse rawContent (pickBy m)
  | .absent => []

/-- parser.js lines 48-61: merge delimiter attributes, the type's default
attributes and the parsed attributes, later sources overwriting earlier
ones; with no block type, the delimiter attributes (or the empty mapping)
are returned as they are. -/
def getBlockAttributes {V : Type} (blockType : Option (BlockType V))
    (rawContent : String) (attributes : Option (ObjMap V)) : ObjMap V :=
  match blockType with
  | some bt =>
      (match attributes with | some a => a | none => []) ++
        bt.defaultAttributes ++ parseBlockAttributes rawContent bt
  | none => match attributes with | some a => a | none => []

/-- JS String.prototype.trim, modelled on the string's character list:
whitespace stripped from both ends. -/
def jsTrim (s : String) : String :=
  ⟨((s.data.dropWhile Char.isWhitespace).reverse.dropWhile
      Char.isWhitespace).reverse⟩

/-- The external collaborators of parser.js, passed explicitly (spec
section 9 models the registry and the fallback name as explicit
configuration): the type registry lookup, the process-wide unknown-type
handler name (possibly unset), and the external block constructor.  `β` is
the constructor's opaque result type. -/
structure Env (V β : Type) where
  getBlockType : String → Option (BlockType V)
  getUnknownTypeHandler : Option String
  createBlock : Option String → ObjMap V → β

/-- JS `name || fallback` on an optional string: undefined and the empty
string, both falsy, select the fallback. -/
def jsOr (name fallback : Option String) : Option String :=
  match name with
  | some s => if s = "" then fallback else some s
  | none => fallback

/-- Registry lookup lifted to a possibly-absent name: looking up an unset
name finds nothing (spec section 6: an unset handler name also resolves to
absent). -/
def lookupBlockType {V β : Type} (env : Env V β) :
    Option String → Option (BlockType V)
  | some s => env.getBlockType s
  | none => none

/-- parser.js lines 72-81 (the type and fallback resolver of spec section
4.3): choose the declared name, falsy or absent falling back to the
unknown-type handler name; look it up; on failure retry once with the
handler name, with no further cascading.  Returns the chosen name and the
found type. -/
def resolveType {V β : Type} (env : Env V β) (name : Option String) :
    Option String × Option (BlockType V) :=
  let blockName := jsOr name env.getUnknownTypeHandler
  let blockType := lookupBlockType env blockName
  match blockType with
  | none =>
      (env.getUnknownTypeHandler,
        lookupBlockType env env.getUnknownTypeHandler)
  | some bt => (blockName, some bt)

/-- parser.js lines 71-97: resolve the type with fallback, then construct a
block unless the type is absent or the trimmed content is empty while the
resolved name is the fallback name.  The attributes are resolved on the
trimmed raw content. -/
def createBlockWithFallback {V β : Type} (env : Env V β)
    (name : Option String) (rawContent : String)
    (attributes : Option (ObjMap V)) : Option β :=
  let r := resolveType env name
  let fallbackBlock := env.getUnknownTypeHandler
  match r.2 with
  | some bt =>
      if jsTrim rawContent ≠ "" ∨ r.1 ≠ fallbackBlock then
        some (env.createBlock r.1
          (getBlockAttributes (some bt) (jsTrim rawContent) attributes))
      else none
  | none => none

/-- A parse node as produced by the pegjs grammar and destructured at
parser.js line 107: the declared name (grammar field `blockType`), the raw
inner content, and the delimiter attributes. -/
structure BlockNode (V : Type) where
  blockType : Option String
  rawContent : String
  attrs : Option (ObjMap V)

/-- parser.js lines 105-114, with the pegjs grammar passed as an explicit
function (it is an external input of parser.js): reduce over the grammar's
nodes in order, pushing each constructed block and skipping suppressed
nodes. -/
def parseWithGrammar {V β : Type} (env : Env V β)
    (grammarParse : String → List (BlockNode V)) (content : String) :
    List β :=
  (grammarParse content).foldl
    (fun memo blockNode =>
      match createBlockWithFallback env blockNode.blockType
          blockNode.rawContent blockNode.attrs with
      | some block => memo ++ [block]
      | none => memo)
    []

/-! ## Exception-threaded embedding

JS exceptions raised by the pegjs grammar or by extractor and matcher code
are made explicit with `Except`: parser.js contains no try/catch, so every
call site is a plain monadic bind and an error short-circuits the whole
parse.  Definitions mirror the pure ones with fallible extractors. -/

/-- A matcher rule whose evaluation may raise (Except error `E`). -/
structure MatcherRuleE (E V : Type) where
  _wpBlocksKnownMatcher : Bool
  run : String → Except E (Option V)

/-- The `attributes` spec with fallible extractor functions and rules. -/
inductive AttrSpecE (E V : Type) where
  | func (f : String → Except E (ObjMap V))
  | matchers (m : List (String × MatcherRuleE E V))
  | absent

/-- A block type with a fallible attributes spec. -/
structure BlockTypeE (E V : Type) where
  attributes : AttrSpecE E V
  defaultAttributes : ObjMap V

/-- pickBy for fallible rules (parser.js line 32). -/
def pickByE {E V : Type} (m : List (String × MatcherRuleE E V)) :
    List (String × MatcherRuleE E V) :=
  m.filter (fun p => p.2._wpBlocksKnownMatcher)

/-- Modelled from the spec: hpq's parse with fallible rules; the first rule
that raises aborts the extraction (spec section 7, ExtractionFailure). -/
def hpqParseE {E V : Type} (rawContent : String)
    (ms : List (String × MatcherRuleE E V)) : Except E (ObjMap V) :=
  ms.foldlM
    (fun acc p =>
      (p.2.run rawContent).map
        (fun v? => match v? with
          | some v => acc ++ [(p.1, v)]
          | none => acc))
    []

/-- parser.js lines 21-38 with fallible extraction. -/
def parseBlockAttributesE {E V : Type} (rawContent : String)
    (blockType : BlockTypeE E V) : Except E (ObjMap V) :=
  match blockType.attributes with
  | .func f => f rawContent
  | .matchers m => hpqParseE rawContent (pickByE m)
  | .absent => .ok []

/-- parser.js lines 48-61 with fallible extraction: an extraction error
propagates, otherwise the same three-way merge. -/
def getBlockAttributesE {E V : Type} (blockType : Option (BlockTypeE E V))
    (rawContent : String) (attributes : Option (ObjMap V)) :
    Except E (ObjMap V) :=
  match blockType with
  | some bt =>
      (parseBlockAttributesE rawContent bt).map
        (fun extracted =>
          (match attributes with | some a => a | none => []) ++
            bt.defaultAttributes ++ extracted)
  | none => .ok (match attributes with | some a => a | none => [])

/-- The external collaborators with fallible block types. -/
structure EnvE (E V β : Type) where
  getBlockType : String → Option (BlockTypeE E V)
  getUnknownTypeHandler : Option String
  createBlock : Option String → ObjMap V → β

/-- Registry lookup lifted to a possibly-absent name (fallible variant). -/
def lookupBlockTypeE {E V β : Type} (env : EnvE E V β) :
    Option String → Option (BlockTypeE E V)
  | some s => env.getBlockType s
  | none => none

/-- parser.js lines 72-81 (fallible variant): name and type resolution is
itself pure. -/
def resolveTypeE {E V β : Type} (env : EnvE E V β) (name : Option String) :
    Option String × Option (BlockTypeE E V) :=
  let blockName := jsOr name env.getUnknownTypeHandler
  let blockType := lookupBlockTypeE env blockName
  match blockType with
  | none =>
      (env.getUnknownTypeHandler,
        lookupBlockTypeE env env.getUnknownTypeHandler)
  | some bt => (blockName, some bt)

/-- parser.js lines 71-97 with fallible extraction: an error raised while
resolving attributes propagates un-caught (there is no try/catch). -/
def createBlockWithFallbackE {E V β : Type} (env : EnvE E V β)
    (name : Option String) (rawContent : String)
    (attributes : Option (ObjMap V)) : Except E (Option β) :=
  let r := resolveTypeE env name
  match r.2 with
  | some bt =>
      if jsTrim rawContent ≠ "" ∨ r.1 ≠ env.getUnknownTypeHandler then
        (getBlockAttributesE (some bt) (jsTrim rawContent) attributes).map
          (fun attrs => some (env.createBlock r.1 attrs))
      else .ok none
  | none => .ok none

/-- parser.js lines 105-114 with a fallible grammar and fallible
extraction: a grammar error or an extraction error aborts the reduce; no
partial list is returned (the error value carries no blocks). -/
def parseWithGrammarE {E V β : Type} (env : EnvE E V β)
    (grammarParse : String → Except E (List (BlockNode V)))
    (content : String) : Except E (List β) :=
  (grammarParse content).bind
    (fun nodes =>
      nodes.foldlM
        (fun memo blockNode =>
          (createBlockWithFallbackE env blockNode.blockType
              blockNode.rawContent blockNode.attrs).map
            (fun block? => match block? with
              | some block => memo ++ [block]
              | none => memo))
        [])

/-! ## Heap embedding of getBlockAttributes

JS object identity made explicit: a heap is the list of allocated objects,
a reference is an index into it, and the delimiter-attributes argument of
getBlockAttributes is passed by reference.  Objects are only read, never
written; the object literal of parser.js lines 53-57 allocates a fresh
object. -/

/-- The allocated objects, indexed by allocation order. -/
abbrev Heap (V : Type) := List (ObjMap V)

/-- Allocate a fresh object, returning the extended heap and the new
reference. -/
def alloc {V : Type} (h : Heap V) (o : ObjMap V) : Heap V × Nat :=
  (h ++ [o], h.length)

/-- Read an object from the heap. -/
def deref {V : Type} (h : Heap V) (r : Nat) : ObjMap V :=
  (h[r]?).getD []

/-- parser.js lines 48-61 with allocation explicit: `attributes` is a
reference (or absent).  `let attrs = attributes || ...` aliases the argument
or allocates an empty object; with a block type present, the object literal
reads the argument's contents and allocates a fresh merged object, which is
returned; with no block type, the aliased reference itself is returned. -/
def getBlockAttributesH {V : Type} (blockType : Option (BlockType V))
    (rawContent : String) (attributes : Option Nat) (h : Heap V) :
    Heap V × Nat :=
  let ha := match attributes with
    | some r => (h, r)
    | none => alloc h []
  match blockType with
  | some bt =>
      alloc ha.1
        ((match attributes with | some r => deref ha.1 r | none => []) ++
          bt.defaultAttributes ++ parseBlockAttributes rawContent bt)
  | none => ha

/-! ## Concrete fixtures

Small registries, block types and grammars used to evaluate the embedding
on the spec's concrete scenarios.  The constructor result type is the pair
of the name and attributes handed to the external factory, so witnesses can
observe exactly what parser.js passes to createBlock. -/

/-- The block type of spec property P2: defaultAttributes a = 1 and an
extractor returning a = 4. -/
def btP2 : BlockType Nat :=
  ⟨.func (fun _ => [("a", 4)]), [("a", 1)]⟩

/-- A plain fallback block type: no attributes spec, no defaults. -/
def freeformType : BlockType Nat := ⟨.absent, []⟩

/-- A block type whose extractor records the length of the content it was
handed, to observe trimming. -/
def noteType : BlockType Nat :=
  ⟨.func (fun s => [("c", s.length)]), []⟩

/-- A registry with only the fallback type `freeform` registered. -/
def envFree : Env Nat (Option String × ObjMap Nat) :=
  ⟨fun s => if s = "freeform" then some freeformType else none,
    some "freeform", fun n a => (n, a)⟩

/-- A registry with `note` and the fallback `freeform` registered. -/
def envNote : Env Nat (Option String × ObjMap Nat) :=
  ⟨fun s =>
      if s = "note" then some noteType
      else if s = "freeform" then some freeformType else none,
    some "freeform", fun n a => (n, a)⟩

/-- A registry in which the empty string is itself a registered name and
the fallback `fb` is registered too. -/
def envEmptyName : Env Nat (Option String × ObjMap Nat) :=
  ⟨fun s =>
      if s = "" then some ⟨.absent, [("e", 1)]⟩
      else if s = "fb" then some freeformType else none,
    some "fb", fun n a => (n, a)⟩

/-- A grammar producing one freeform span holding the whole document. -/
def grammarFree : String → List (BlockNode Nat) :=
  fun content => [⟨none, content, none⟩]

/-- A grammar producing one structured section named `note`. -/
def grammarNote : String → List (BlockNode Nat) :=
  fun _ => [⟨some "note", "hi", none⟩]


/-! ## Helper lemmas -/

/-- Lookup in an appended mapping prefers the later (right) part: JS spread
overwrite. -/
theorem getAttr_append {V : Type} (a b : ObjMap V) (k : String) :
    getAttr (a ++ b) k = (getAttr b k).or (getAttr a k) := by
  simp only [getAttr, List.reverse_append, List.find?_append]
  cases List.find? (fun p => p.1 == k) b.reverse <;> simp [Option.or]

/-- A mapping without a binding of a key resolves it to nothing. -/
theorem getAttr_eq_none_of_no_key {V : Type} {m : ObjMap V} {k : String}
    (h : ∀ p ∈ m, p.1 ≠ k) : getAttr m k = none := by
  have hf : List.find? (fun p => p.1 == k) m.reverse = none := by
    rw [List.find?_eq_none]
    intro x hx
    simp only [List.mem_reverse] at hx
    simpa using h x hx
  simp [getAttr, hf]

/-- Every key of an hpq extraction result is a key of the given rules. -/
theorem hpqParse_keys {V : Type} {rawContent : String}
    {ms : List (String × MatcherRule V)} {p : String × V}
    (hp : p ∈ hpqParse rawContent ms) : ∃ q ∈ ms, q.1 = p.1 := by
  simp only [hpqParse, List.mem_filterMap] at hp
  obtain ⟨q, hq, hgq⟩ := hp
  cases hrun : q.2.run rawContent with
  | none => rw [hrun] at hgq; simp at hgq
  | some v =>
      rw [hrun] at hgq
      simp only [Option.map_some'] at hgq
      have hqp := Option.some.inj hgq
      exact ⟨q, hq, by rw [← hqp]⟩

/-- The reduce of parser.js lines 106-113 is a filterMap. -/
theorem foldl_push_filterMap {α β : Type} (g : α → Option β) (l : List α) :
    ∀ acc : List β,
      l.foldl (fun memo x => match g x with
        | some b => memo ++ [b]
        | none => memo) acc = acc ++ l.filterMap g := by
  induction l with
  | nil => simp
  | cons hd t ih =>
      intro acc
      cases hg : g hd <;> simp [hg, ih, List.filterMap_cons]

/-- parseWithGrammar as a filterMap over the grammar's nodes. -/
theorem parseWithGrammar_eq_filterMap {V β : Type} (env : Env V β)
    (grammarParse : String → List (BlockNode V)) (content : String) :
    parseWithGrammar env grammarParse content =
      (grammarParse content).filterMap
        (fun n => createBlockWithFallback env n.blockType n.rawContent
          n.attrs) := by
  have := foldl_push_filterMap
    (fun n : BlockNode V =>
      createBlockWithFallback env n.blockType n.rawContent n.attrs)
    (grammarParse content) []
  simpa [parseWithGrammar] using this

/-- The resolved type is always the lookup of the resolved name. -/
theorem resolveType_snd_lookup {V β : Type} (env : Env V β)
    (name : Option String) :
    (resolveType env name).2 =
      lookupBlockType env (resolveType env name).1 := by
  unfold resolveType
  cases h : lookupBlockType env (jsOr name env.getUnknownTypeHandler) <;>
    simp [h]

/-- What a successful createBlockWithFallback returns: the constructor
applied to the resolved name and the attributes of the trimmed content. -/
theorem createBlockWithFallback_some {V β : Type} {env : Env V β}
    {name : Option String} {rawContent : String}
    {attributes : Option (ObjMap V)} {b : β}
    (h : createBlockWithFallback env name rawContent attributes = some b) :
    ∃ bt, (resolveType env name).2 = some bt ∧
      b = env.createBlock (resolveType env name).1
        (getBlockAttributes (some bt) (jsTrim rawContent) attributes) := by
  simp only [createBlockWithFallback] at h
  split at h
  · split at h
    · exact ⟨_, by assumption, (Option.some.inj h).symm⟩
    · exact absurd h (by simp)
  · exact absurd h (by simp)


/-! ## Claim theorems -/

/-- C1: with a present block type, getBlockAttributes resolves every key by
merging the three sources in ascending precedence, delimiter attributes
(lowest), then the type's defaultAttributes, then the extracted attributes
(highest), a later source overwriting a same-named key; in particular with
defaultAttributes a = 1, delimiter attributes a = 2, b = 3 and an extractor
returning a = 4, the result is the mapping a = 4, b = 3. -/
theorem getBlockAttributes_precedence :
    (∀ (V : Type) (bt : BlockType V) (rawContent : String)
        (attributes : Option (ObjMap V)) (k : String),
      getAttr (getBlockAttributes (some bt) rawContent attributes) k =
        ((getAttr (parseBlockAttributes rawContent bt) k).or
          ((getAttr bt.defaultAttributes k).or
            (getAttr (attributes.getD []) k)))) ∧
    (∀ k : String,
      getAttr (getBlockAttributes (some btP2) "" (some [("a", 2), ("b", 3)]))
          k =
        getAttr [("b", 3), ("a", 4)] k) := by
  have general : ∀ (V : Type) (bt : BlockType V) (rawContent : String)
      (attributes : Option (ObjMap V)) (k : String),
      getAttr (getBlockAttributes (some bt) rawContent attributes) k =
        ((getAttr (parseBlockAttributes rawContent bt) k).or
          ((getAttr bt.defaultAttributes k).or
            (getAttr (attributes.getD []) k))) := by
    intro V bt rawContent attributes k
    simp only [getBlockAttributes]
    rw [getAttr_append, getAttr_append]
    cases attributes <;> simp [Option.or_assoc]
  refine ⟨general, ?_⟩
  intro k
  rw [general]
  by_cases ha : k = "a"
  · subst ha; decide
  · by_cases hb : k = "b"
    · subst hb; decide
    · have ha' : ("a" == k) = false := by simpa using fun h => ha h.symm
      have hb' : ("b" == k) = false := by simpa using fun h => hb h.symm
      simp [getAttr, btP2, parseBlockAttributes, List.find?, ha', hb',
        Option.or]

/-- C5: with no block type, getBlockAttributes returns the delimiter
attributes unchanged, and the empty mapping when they are absent too;
defaults and extraction play no part. -/
theorem getBlockAttributes_absent_type :
    ∀ (V : Type) (rawContent : String) (m : ObjMap V),
      getBlockAttributes none rawContent (some m) = m ∧
      getBlockAttributes (V := V) none rawContent none = [] :=
  fun _ _ _ => ⟨rfl, rfl⟩

/-- C4: an attributes mapping is filtered to the entries carrying the
known-matcher marker before extraction; an entry whose rule lacks the
marker contributes no key to the extracted attributes (and this is not an
error, the function is total); concretely, of one marker-tagged rule and
one untagged rule only the tagged rule's key appears. -/
theorem parseBlockAttributes_known_matchers :
    (∀ (V : Type) (m : List (String × MatcherRule V)) (rawContent : String)
        (d : ObjMap V),
      parseBlockAttributes rawContent ⟨.matchers m, d⟩ =
        hpqParse rawContent
          (m.filter (fun p => p.2._wpBlocksKnownMatcher))) ∧
    (∀ (V : Type) (m : List (String × MatcherRule V)) (rawContent : String)
        (d : ObjMap V) (k : String),
      (∀ p ∈ m, p.1 = k → p.2._wpBlocksKnownMatcher = false) →
      getAttr (parseBlockAttributes rawContent ⟨.matchers m, d⟩) k = none) ∧
    (parseBlockAttributes "content"
        ⟨.matchers [("tagged", ⟨true, fun _ => some 7⟩),
          ("plain", ⟨false, fun _ => some 9⟩)], []⟩ =
      [("tagged", 7)]) := by
  refine ⟨fun V m raw d => rfl, ?_, rfl⟩
  intro V m raw d k h
  apply getAttr_eq_none_of_no_key
  intro p hp hpk
  obtain ⟨q, hq, hqk⟩ := hpqParse_keys hp
  rw [pickBy, List.mem_filter] at hq
  have := h q hq.1 (by rw [hqk, hpk])
  rw [this] at hq
  exact Bool.false_ne_true hq.2

/-- C2: createBlockWithFallback yields no block exactly when the resolved
type is absent or the trimmed raw content is empty while the resolved name
is the fallback name; a whitespace-only document with only the fallback
type registered yields the empty block list, while a registered, explicitly
named empty section whose name differs from the fallback name yields one
block. -/
theorem createBlockWithFallback_none_iff :
    (∀ (V β : Type) (env : Env V β) (name : Option String)
        (rawContent : String) (attributes : Option (ObjMap V)),
      createBlockWithFallback env name rawContent attributes = none ↔
        ((resolveType env name).2 = none ∨
          (jsTrim rawContent = "" ∧
            (resolveType env name).1 = env.getUnknownTypeHandler))) ∧
    parseWithGrammar envFree grammarFree "   " = [] ∧
    createBlockWithFallback envNote (some "note") "" none =
      some (some "note", [("c", 0)]) := by
  refine ⟨?_, by decide, by decide⟩
  intro V β env name rawContent attributes
  simp only [createBlockWithFallback]
  split
  · rename_i bt heq
    split
    · rename_i hc
      simp only [heq, reduceCtorEq, false_or, false_iff]
      intro hand
      rcases hc with hc | hc
      · exact hc hand.1
      · exact hc hand.2
    · rename_i hc
      push_neg at hc
      simp [heq, hc.1, hc.2]
  · rename_i heq
    simp [heq]


/-- C3 counterexample: the declared name may be present and registered yet
not preferred — the empty string is a present, registered name here, but
resolution falls back to `fb` and the emitted block carries `fb`. -/
theorem resolveType_declared_name_cex :
    (envEmptyName.getBlockType "").isSome = true ∧
    (resolveType envEmptyName (some "")).1 = some "fb" ∧
    createBlockWithFallback envEmptyName (some "") "x" none =
      some (some "fb", []) := by decide

/-- C3 amended: type resolution is a two-attempt lookup with no further
cascading — the chosen name is the declared name when present and
non-empty, else the fallback name (the empty string, falsy in JS, is
treated as absent); if the first lookup fails the fallback name is looked
up once more, so an unregistered fallback leaves the type absent; a
present, non-empty, registered declared name is preferred and the emitted
block carries it. -/
theorem resolveType_two_lookups :
    (∀ (V β : Type) (env : Env V β) (s : String) (bt : BlockType V),
      s ≠ "" → env.getBlockType s = some bt →
      resolveType env (some s) = (some s, some bt)) ∧
    (∀ (V β : Type) (env : Env V β) (name : Option String)
        (bt : BlockType V),
      lookupBlockType env (jsOr name env.getUnknownTypeHandler) = some bt →
      resolveType env name =
        (jsOr name env.getUnknownTypeHandler, some bt)) ∧
    (∀ (V β : Type) (env : Env V β) (name : Option String),
      lookupBlockType env (jsOr name env.getUnknownTypeHandler) = none →
      resolveType env name =
        (env.getUnknownTypeHandler,
          lookupBlockType env env.getUnknownTypeHandler)) ∧
    (∀ (V β : Type) (env : Env V β) (name : Option String),
      lookupBlockType env (jsOr name env.getUnknownTypeHandler) = none →
      lookupBlockType env env.getUnknownTypeHandler = none →
      (resolveType env name).2 = none) ∧
    (∀ (V β : Type) (env : Env V β) (s : String) (bt : BlockType V)
        (rawContent : String) (attributes : Option (ObjMap V)),
      s ≠ "" → env.getBlockType s = some bt →
      (jsTrim rawContent ≠ "" ∨ some s ≠ env.getUnknownTypeHandler) →
      createBlockWithFallback env (some s) rawContent attributes =
        some (env.createBlock (some s)
          (getBlockAttributes (some bt) (jsTrim rawContent) attributes))) := by
  have first : ∀ (V β : Type) (env : Env V β) (s : String) (bt : BlockType V),
      s ≠ "" → env.getBlockType s = some bt →
      resolveType env (some s) = (some s, some bt) := by
    intro V β env s bt hs hbt
    simp [resolveType, jsOr, lookupBlockType, hs, hbt]
  refine ⟨first, ?_, ?_, ?_, ?_⟩
  · intro V β env name bt hfound
    simp [resolveType, hfound]
  · intro V β env name hfail
    simp [resolveType, hfail]
  · intro V β env name hfail hfb
    simp [resolveType, hfail, hfb]
  · intro V β env s bt rawContent attributes hs hbt hc
    simp only [createBlockWithFallback, first V β env s bt hs hbt]
    rw [if_pos hc]

/-- C6: the block list is a straight map-and-filter of the grammar's node
sequence — each surviving node contributes exactly one block, blocks are in
node (document) order, and suppressed nodes leave no entry. -/
theorem parseWithGrammar_map_filter :
    ∀ (V β : Type) (env : Env V β)
      (grammarParse : String → List (BlockNode V)) (content : String),
      parseWithGrammar env grammarParse content =
        (grammarParse content).filterMap
          (fun n => createBlockWithFallback env n.blockType n.rawContent
            n.attrs) :=
  fun _ _ env grammarParse content =>
    parseWithGrammar_eq_filterMap env grammarParse content

/-- C7: a non-suppressed node's block is the construct callback applied to
the final resolved name and the attributes resolved on the node's trimmed
raw content. -/
theorem createBlockWithFallback_construct (V β : Type) (env : Env V β)
    (name : Option String) (rawContent : String)
    (attributes : Option (ObjMap V)) (b : β)
    (h : createBlockWithFallback env name rawContent attributes = some b) :
    ∃ bt, (resolveType env name).2 = some bt ∧
      b = env.createBlock (resolveType env name).1
        (getBlockAttributes (some bt) (jsTrim rawContent) attributes) :=
  createBlockWithFallback_some h

/-- C7 witness: a `note` section with raw content padded by whitespace is
constructed from the trimmed content (its extractor sees a content of
length 2). -/
theorem createBlockWithFallback_construct_witness :
    ∃ bt, (resolveType envNote (some "note")).2 = some bt ∧
      (some "note", [("c", 2)]) = envNote.createBlock
        (resolveType envNote (some "note")).1
        (getBlockAttributes (some bt) (jsTrim " hi ") none) :=
  createBlockWithFallback_construct Nat (Option String × ObjMap Nat) envNote
    (some "note") " hi " none (some "note", [("c", 2)]) (by decide)

/-- C9: every block emitted by parseWithGrammar was constructed under a
name whose registry lookup found a present block type, and the name handed
to the constructor is exactly that name. -/
theorem parseWithGrammar_registered_names (V β : Type) (env : Env V β)
    (grammarParse : String → List (BlockNode V)) (content : String) (b : β)
    (h : b ∈ parseWithGrammar env grammarParse content) :
    ∃ n ∈ grammarParse content, ∃ s bt,
      (resolveType env n.blockType).1 = some s ∧
      env.getBlockType s = some bt ∧
      b = env.createBlock (some s)
        (getBlockAttributes (some bt) (jsTrim n.rawContent) n.attrs) := by
  rw [parseWithGrammar_eq_filterMap] at h
  obtain ⟨n, hn, hsome⟩ := List.mem_filterMap.mp h
  obtain ⟨bt, h2, hb⟩ := createBlockWithFallback_some hsome
  have hlook := resolveType_snd_lookup env n.blockType
  rw [h2] at hlook
  cases hname : (resolveType env n.blockType).1 with
  | none => rw [hname] at hlook; exact absurd hlook.symm (by simp [lookupBlockType])
  | some s =>
      rw [hname] at hlook
      refine ⟨n, hn, s, bt, hname, hlook.symm, ?_⟩
      rw [hb, hname]

/-- C9 witness: the one block of a one-node document is constructed under
the registered name `note`. -/
theorem parseWithGrammar_registered_names_witness :
    ∃ n ∈ grammarNote "doc", ∃ s bt,
      (resolveType envNote n.blockType).1 = some s ∧
      envNote.getBlockType s = some bt ∧
      (some "note", [("c", 2)]) = envNote.createBlock (some s)
        (getBlockAttributes (some bt) (jsTrim n.rawContent) n.attrs) :=
  parseWithGrammar_registered_names Nat (Option String × ObjMap Nat) envNote
    grammarNote "doc" (some "note", [("c", 2)]) (by decide)


/-- In the Except monad, a fold whose step fails on a member of the list
fails as a whole (no partial accumulator escapes). -/
theorem foldlM_error_of_mem {E α γ : Type} (step : γ → α → Except E γ)
    (l : List α) (n : α) (hn : n ∈ l)
    (he : ∀ acc, ∃ e, step acc n = .error e) :
    ∀ acc, ∃ e2, l.foldlM step acc = Except.error e2 := by
  induction l with
  | nil => cases hn
  | cons hd t ih =>
      intro acc
      rw [List.foldlM_cons]
      cases List.mem_cons.mp hn with
      | inl heq =>
          subst heq
          obtain ⟨e, he'⟩ := he acc
          rw [he']
          exact ⟨e, rfl⟩
      | inr hmem =>
          cases hstep : step acc hd with
          | error e => exact ⟨e, rfl⟩
          | ok acc' => simpa using ih hmem acc'

/-- C8: errors are never downgraded to partial output — if the grammar
parse of the document fails, parseWithGrammar propagates that very error;
and if extraction raises on any node of a successfully parsed document, the
whole parse is an error, so no block list (partial or otherwise) is
returned. -/
theorem parseWithGrammar_no_partial_output :
    (∀ (E V β : Type) (env : EnvE E V β)
        (grammarParse : String → Except E (List (BlockNode V)))
        (content : String) (e : E),
      grammarParse content = .error e →
      parseWithGrammarE env grammarParse content = .error e) ∧
    (∀ (E V β : Type) (env : EnvE E V β)
        (grammarParse : String → Except E (List (BlockNode V)))
        (content : String) (nodes : List (BlockNode V)) (n : BlockNode V)
        (e : E),
      grammarParse content = .ok nodes → n ∈ nodes →
      createBlockWithFallbackE env n.blockType n.rawContent n.attrs =
        .error e →
      ∃ e2, parseWithGrammarE env grammarParse content =
        Except.error e2) := by
  constructor
  · intro E V β env grammarParse content e hg
    unfold parseWithGrammarE
    rw [hg]
    rfl
  · intro E V β env grammarParse content nodes n e hg hn hraise
    have he : ∀ acc : List β, ∃ e2,
        (createBlockWithFallbackE env n.blockType n.rawContent
            n.attrs).map
          (fun block? => match block? with
            | some block => acc ++ [block]
            | none => acc) = Except.error e2 := by
      intro acc
      rw [hraise]
      exact ⟨e, rfl⟩
    obtain ⟨e2, h2⟩ := foldlM_error_of_mem
      (fun memo blockNode =>
        (createBlockWithFallbackE env blockNode.blockType
            blockNode.rawContent blockNode.attrs).map
          (fun block? => match block? with
            | some block => memo ++ [block]
            | none => memo))
      nodes n hn he []
    refine ⟨e2, ?_⟩
    unfold parseWithGrammarE
    rw [hg]
    exact h2

/-- C10: getBlockAttributes does not mutate the delimiter-attributes
object — with a block type present the returned reference is a freshly
allocated one, distinct from the argument reference, and the argument's
contents after the call are its contents before; with no block type the
argument's contents are also untouched. -/
theorem getBlockAttributesH_no_mutation (V : Type) (bt : BlockType V)
    (rawContent : String) (h : Heap V) (r : Nat) (hr : r < h.length) :
    (getBlockAttributesH (some bt) rawContent (some r) h).2 ≠ r ∧
    deref (getBlockAttributesH (some bt) rawContent (some r) h).1 r =
      deref h r ∧
    (∀ blockType : Option (BlockType V),
      deref (getBlockAttributesH blockType rawContent (some r) h).1 r =
        deref h r) := by
  have hpres : ∀ o : ObjMap V, deref (h ++ [o]) r = deref h r := by
    intro o
    simp [deref, List.getElem?_append, hr]
  refine ⟨?_, hpres _, ?_⟩
  · exact fun hcontra => absurd (hcontra ▸ hr) (lt_irrefl _)
  · intro blockType
    cases blockType with
    | some bt' => exact hpres _
    | none => rfl

/-- C10 witness: on a one-object heap, resolving with a present block type
returns a new reference and leaves the argument object intact. -/
theorem getBlockAttributesH_no_mutation_witness :
    (0 : Nat) < ([[("a", 1)]] : Heap Nat).length ∧
    ((getBlockAttributesH (some freeformType) "x" (some 0)
        [[("a", 1)]]).2 ≠ 0 ∧
      deref (getBlockAttributesH (some freeformType) "x" (some 0)
          [[("a", 1)]]).1 0 =
        deref [[("a", 1)]] 0 ∧
      (∀ blockType : Option (BlockType Nat),
        deref (getBlockAttributesH blockType "x" (some 0)
            [[("a", 1)]]).1 0 =
          deref [[("a", 1)]] 0)) :=
  ⟨by decide,
    getBlockAttributesH_no_mutation Nat freeformType "x" [[("a", 1)]] 0
      (by decide)⟩

end GutenbergParser
